import Mathlib

/-!
Shallow embedding of the fasta-cpp FASTA reader (three lineage variants of
fasta.h) over byte lists. Bytes are modelled as natural numbers; the C type
char is signed on the target platform, so a byte b is read back as the
integer toSigned b. End of stream is modelled by exhausting the byte list.
-/

namespace Fasta

/-- Signed char value of a byte, as on x86 where char is signed. -/
def toSigned (b : Nat) : Int :=
  if b % 256 < 128 then (b % 256 : Int) else (b % 256 : Int) - 256

/-- The TO_UPPER macro: maps lowercase ASCII letters to uppercase,
anything else unchanged. -/
def TO_UPPER (c : Int) : Int :=
  if 97 ≤ c ∧ c ≤ 122 then c - 32 else c

/-- Byte values of the string constant VALID_CODES =
uppercase letters A..Z followed by the stop code 42 and the gap code 45. -/
def VALID_CODES : List Int :=
  ((List.range 26).map (fun i => (65 + i : Int))) ++ [42, 45]

/-- Validity test of the fixed-width variant:
strchr(VALID_CODES, TO_UPPER(tmp)) is non-null. Since strchr also matches
the terminating NUL of its first argument, the value 0 passes. -/
def valid1 (b : Nat) : Bool :=
  TO_UPPER (toSigned b) == 0 || VALID_CODES.contains (TO_UPPER (toSigned b))

/-- Validity test of the isprint-based scanning variant:
isprint in the C locale accepts exactly the bytes 32..126. -/
def isprintC (b : Nat) : Bool :=
  32 ≤ toSigned b && toSigned b ≤ 126

/-- The IS_VALID macro of the third variant, on a signed char value.
The second disjunct compares against an empty range (97 ≤ c and c ≤ 90). -/
def IS_VALID (c : Int) : Bool :=
  (65 ≤ c && c ≤ 90) || (97 ≤ c && c ≤ 90) || c == 45 || c == 42

/-- Validity test of the third variant applied to a byte. -/
def valid3 (b : Nat) : Bool :=
  IS_VALID (toSigned b)

/-- The byte stored by ret += TO_UPPER(tmp): the char value reduced to a
byte of the output string. -/
def foldByte (b : Nat) : Nat :=
  ((TO_UPPER (toSigned b)).emod 256).toNat

/-- The byte appended to the result: TO_UPPER(tmp) when caps is set,
the raw byte otherwise. -/
def stored (caps : Bool) (b : Nat) : Nat :=
  if caps then foldByte b else b

/-- Error conditions of the query interface. The code only ever raises the
out-of-bounds condition; InvalidRange appears in the design taxonomy. -/
inductive QueryError where
  | OutOfBounds
  | InvalidRange
deriving DecidableEq

/-- Result of a get_sequence call: a byte string or an error. -/
inductive QueryResult where
  | ok (s : List Nat)
  | err (e : QueryError)
deriving DecidableEq

/-- The extraction loop shared by all three variants:
while (count < needed) \x7b tmp = get(); if EOF throw; if valid append
(optionally uppercased) and count; else skip \x7d. The EOF comparison is on
the char value, so a byte equal to 255 also takes the EOF branch. -/
def extractLoop (vp : Nat → Bool) (caps : Bool) : List Nat → Nat → QueryResult
  | _, 0 => .ok []
  | [], _ + 1 => .err .OutOfBounds
  | b :: rest, n + 1 =>
    if toSigned b == -1 then .err .OutOfBounds
    else if vp b then
      match extractLoop vp caps rest n with
      | .ok s => .ok (stored caps b :: s)
      | .err e => .err e
    else extractLoop vp caps rest (n + 1)

/-- The loop count bound (end - start) + 1 computed in size_t arithmetic,
wrapping modulo 2^64. -/
def needed (start stop : Nat) : Nat :=
  (((stop : Int) - (start : Int) + 1).emod (2 ^ 64)).toNat

/-- The seq_start member of the fixed-width variant:
header_len + (start / line_nt) * (line_nt + 1) + start % line_nt - 1,
in size_t arithmetic (truncated subtraction). -/
def seq_start (header_len line_nt start : Nat) : Nat :=
  header_len + (start / line_nt) * (line_nt + 1) + start % line_nt - 1

/-- One std::getline call: the line up to the first newline byte, and the
remaining stream past the consumed terminator. -/
def getline (bytes : List Nat) : List Nat × List Nat :=
  (bytes.takeWhile (fun b => b != 10),
   bytes.drop ((bytes.takeWhile (fun b => b != 10)).length + 1))

/-- The open member of the fixed-width variant: the first line is consumed
unconditionally as the header (header_len = its length plus one), the
second line measures line_nt; the call reports failure when the stream is
already exhausted before the second getline. -/
def open_v1 (bytes : List Nat) : Option (Nat × Nat) :=
  let p1 := getline bytes
  let p2 := getline p1.2
  if p1.2.isEmpty then none else some (p1.1.length + 1, p2.1.length)

/-- The get_sequence member of the fixed-width variant: seek to
seq_start(start), then run the extraction loop for (end - start) + 1
characters with the strchr validity test. -/
def get_sequence_v1 (bytes : List Nat) (header_len line_nt start stop : Nat)
    (caps : Bool) : QueryResult :=
  extractLoop valid1 caps (bytes.drop (seq_start header_len line_nt start))
    (needed start stop)

/-- The file content ">seq1\n ACGTACGT\n ACGT\n" of the reference scenario,
as bytes (newlines written as 10). -/
def c1file : List Nat :=
  [62, 115, 101, 113, 49, 10,
   65, 67, 71, 84, 65, 67, 71, 84, 10,
   65, 67, 71, 84, 10]

/-- The value (std::size_t)infile.tellg() when the stream has hit end of
file during getline: tellg reports failure as -1, reinterpreted in size_t. -/
def EOFTELL : Nat := 2 ^ 64 - 1

/-- Inner character loop of the scanning variant with isprint: walk the
line; when curpos + 1 reaches start, seek back to tellg minus the unread
tail of the line and stop; printable characters advance curpos. Returns
the seek target when the target was hit, and the final curpos. -/
def scanV2Inner (start tellgv lineLen : Nat) :
    List Nat → Nat → Nat → Option Nat × Nat
  | [], _, curpos => (none, curpos)
  | c :: cs, i, curpos =>
    if curpos + 1 == start then (some (tellgv - (lineLen - i)), curpos)
    else if isprintC c then scanV2Inner start tellgv lineLen cs (i + 1) (curpos + 1)
    else scanV2Inner start tellgv lineLen cs (i + 1) curpos

/-- Outer line loop of the scanning variant with isprint: while
curpos + 1 differs from start and getline succeeds, skip lines opening
with the header marker 62, otherwise scan their characters. The fuel is
an upper bound on the number of getline calls; rem is the stream content
at byte offset pos. Returns the final byte position of the cursor. -/
def scanV2 (start : Nat) : Nat → List Nat → Nat → Nat → Nat
  | 0, _, pos, _ => pos
  | fuel + 1, rem, pos, curpos =>
    if curpos + 1 == start then pos
    else
      match rem with
      | [] => pos
      | _ :: _ =>
        let tmp := rem.takeWhile (fun b => b != 10)
        let consumed := min (tmp.length + 1) rem.length
        let tellgv := if tmp.length == rem.length then EOFTELL
                      else pos + tmp.length + 1
        if tmp.getD 0 0 == 62 then
          scanV2 start fuel (rem.drop consumed) (pos + consumed) curpos
        else
          match scanV2Inner start tellgv tmp.length tmp 0 curpos with
          | (some fin, _) => fin
          | (none, cur) => scanV2 start fuel (rem.drop consumed) (pos + consumed) cur

/-- The get_sequence member of the isprint-based scanning variant: the
stream is seeked to byte offset start, the scan loop runs from there, and
the extraction loop with the isprint test reads from the final position. -/
def get_sequence_v2 (bytes : List Nat) (start stop : Nat) (caps : Bool) :
    QueryResult :=
  let fin := scanV2 start (bytes.length + 1) (bytes.drop start) start 0
  extractLoop isprintC caps (bytes.drop fin) (needed start stop)

/-- Loop of the open member of the third variant: while getline succeeds,
a line whose byte 0 is the header marker 62 or whose byte 1 is the comment
marker 59 is accumulated into the header, any other line sets line_nt and
stops. Out-of-range std::string indexing yields the byte 0. Returns
header_len = accumulated size + line count, and line_nt when it was set. -/
def open_v3_loop : Nat → List Nat → Nat → Nat → Nat × Option Nat
  | 0, _, headLen, lc => (headLen + lc, none)
  | fuel + 1, bytes, headLen, lc =>
    match bytes with
    | [] => (headLen + lc, none)
    | _ :: _ =>
      let tmp := bytes.takeWhile (fun b => b != 10)
      if tmp.getD 0 0 != 62 && tmp.getD 1 0 != 59 then
        (headLen + lc, some tmp.length)
      else
        open_v3_loop fuel (bytes.drop (tmp.length + 1)) (headLen + tmp.length) (lc + 1)

/-- The open member of the third variant. -/
def open_v3 (bytes : List Nat) : Nat × Option Nat :=
  open_v3_loop (bytes.length + 1) bytes 0 0

/-- Split a byte stream into its lines, each without its terminator. -/
def splitLinesAux : Nat → List Nat → List (List Nat)
  | 0, _ => []
  | _, [] => []
  | fuel + 1, bytes =>
    let l := bytes.takeWhile (fun b => b != 10)
    l :: splitLinesAux fuel (bytes.drop (l.length + 1))

/-- All lines of a byte stream. -/
def splitLines (bytes : List Nat) : List (List Nat) :=
  splitLinesAux bytes.length bytes

/-- Reference notion, following the words of the spec: a structural line
is one introduced by the header marker 62 or the comment marker 59. -/
def isStructuralLine (l : List Nat) : Bool :=
  l.getD 0 0 == 62 || l.getD 0 0 == 59

/-- Reference notion, following the words of the spec: a valid sequence
character is a letter of either case, the stop code 42 or the gap code 45. -/
def refValid (b : Nat) : Bool :=
  (65 ≤ b && b ≤ 90) || (97 ≤ b && b ≤ 122) || b == 42 || b == 45

/-- Reference scan, following the words of the spec: the logical sequence
of a file is the concatenation of its non-structural lines, restricted to
valid characters. Logical position p holds its p-th element (1-based). -/
def refSeq (bytes : List Nat) : List Nat :=
  (((splitLines bytes).filter (fun l => !isStructuralLine l)).flatten).filter refValid

/-- Reference byte-offset formula, following the words of the spec:
dataStart + floor((p-1) / lineWidth) * (lineWidth + terminatorLength)
+ ((p-1) mod lineWidth), with a one-byte terminator. -/
def specOffset (dataStart lineWidth p : Nat) : Nat :=
  dataStart + ((p - 1) / lineWidth) * (lineWidth + 1) + (p - 1) % lineWidth

/-- Concatenation of two query results: both strings when both calls
succeed, otherwise the first error in evaluation order. -/
def qcat : QueryResult → QueryResult → QueryResult
  | .ok s, .ok t => .ok (s ++ t)
  | .err e, _ => .err e
  | .ok _, .err e => .err e

/-- The file content ">s\n acgtACGT\n" of the mixed-case scenario. -/
def mixfile : List Nat :=
  [62, 115, 10, 97, 99, 103, 116, 65, 67, 71, 84, 10]

/-- A file whose first line is sequence data: "ACGT\n ACGT\n". -/
def hdrless : List Nat :=
  [65, 67, 71, 84, 10, 65, 67, 71, 84, 10]

/-- A two-record file ">a\n AC\n >b\n GT\n". -/
def multirec : List Nat :=
  [62, 97, 10, 65, 67, 10, 62, 98, 10, 71, 84, 10]

/-- A file with a NUL byte inside the first data line:
">s\n A NUL G T\n ACGT\n". -/
def nulfile : List Nat :=
  [62, 115, 10, 65, 0, 71, 84, 10, 65, 67, 71, 84, 10]

/-! Helper lemmas about the shared extraction loop. -/

/-- A zero-length request returns the empty string without reading. -/
theorem extractLoop_zero (vp : Nat → Bool) (caps : Bool) (bytes : List Nat) :
    extractLoop vp caps bytes 0 = .ok [] := by
  cases bytes <;> rfl

/-- A successful extraction returns exactly the requested number of bytes. -/
theorem extractLoop_ok_length (vp : Nat → Bool) (caps : Bool) :
    ∀ (bytes : List Nat) (n : Nat) (s : List Nat),
      extractLoop vp caps bytes n = .ok s → s.length = n := by
  intro bytes
  induction bytes with
  | nil =>
    intro n s h
    cases n with
    | zero =>
      simp only [extractLoop] at h
      cases h
      rfl
    | succ n => simp [extractLoop] at h
  | cons b rest ih =>
    intro n s h
    cases n with
    | zero =>
      simp only [extractLoop] at h
      cases h
      rfl
    | succ n =>
      rw [extractLoop] at h
      by_cases h1 : (toSigned b == -1) = true
      · rw [if_pos h1] at h
        cases h
      · rw [if_neg h1] at h
        by_cases h2 : vp b = true
        · rw [if_pos h2] at h
          cases heq : extractLoop vp caps rest n with
          | ok s2 =>
            rw [heq] at h
            cases h
            simp [ih n s2 heq]
          | err e => rw [heq] at h; cases h
        · rw [if_neg h2] at h
          exact ih (n + 1) s h

/-- When fewer valid, non-EOF-valued bytes remain than requested, the
extraction loop fails with the out-of-bounds condition. -/
theorem extractLoop_insufficient (vp : Nat → Bool) (caps : Bool) :
    ∀ (bytes : List Nat) (n : Nat),
      bytes.countP (fun b => vp b && !(toSigned b == -1)) < n →
      extractLoop vp caps bytes n = .err .OutOfBounds := by
  intro bytes
  induction bytes with
  | nil =>
    intro n h
    cases n with
    | zero => omega
    | succ n => rfl
  | cons b rest ih =>
    intro n h
    rw [List.countP_cons] at h
    cases n with
    | zero => omega
    | succ n =>
      rw [extractLoop]
      by_cases h1 : (toSigned b == -1) = true
      · rw [if_pos h1]
      · rw [if_neg h1]
        by_cases h2 : vp b = true
        · rw [if_pos h2]
          have hb1 : (toSigned b == -1) = false := by
            simp only [Bool.not_eq_true] at h1
            exact h1
          have hp : (vp b && !(toSigned b == -1)) = true := by
            rw [h2, hb1]
            rfl
          simp only [hp, if_pos] at h
          rw [ih n (by omega)]
        · rw [if_neg h2]
          have hb2 : vp b = false := by
            simp only [Bool.not_eq_true] at h2
            exact h2
          have hp : (vp b && !(toSigned b == -1)) = false := by
            rw [hb2]
            rfl
          simp only [hp, Bool.false_eq_true, if_false] at h
          exact ih (n + 1) (by omega)

/-- Every byte of a successful extraction arises from a byte of the input
that passed the validity test, transformed by the storing step. -/
theorem extractLoop_mem (vp : Nat → Bool) (caps : Bool) :
    ∀ (bytes : List Nat) (n : Nat) (s : List Nat),
      extractLoop vp caps bytes n = .ok s →
      ∀ c ∈ s, ∃ b, b ∈ bytes ∧ vp b = true ∧ c = stored caps b := by
  intro bytes
  induction bytes with
  | nil =>
    intro n s h c hc
    cases n with
    | zero =>
      simp only [extractLoop] at h
      cases h
      simp at hc
    | succ n => simp [extractLoop] at h
  | cons b rest ih =>
    intro n s h c hc
    cases n with
    | zero =>
      simp only [extractLoop] at h
      cases h
      simp at hc
    | succ n =>
      rw [extractLoop] at h
      by_cases h1 : (toSigned b == -1) = true
      · rw [if_pos h1] at h
        cases h
      · rw [if_neg h1] at h
        by_cases h2 : vp b = true
        · rw [if_pos h2] at h
          cases heq : extractLoop vp caps rest n with
          | ok s2 =>
            rw [heq] at h
            cases h
            rcases List.mem_cons.mp hc with hcs | hcs
            · exact ⟨b, List.mem_cons_self b rest, h2, hcs⟩
            · obtain ⟨b2, hb2, hv2, he2⟩ := ih n s2 heq c hcs
              exact ⟨b2, List.mem_cons_of_mem b hb2, hv2, he2⟩
          | err e => rw [heq] at h; cases h
        · rw [if_neg h2] at h
          obtain ⟨b2, hb2, hv2, he2⟩ := ih (n + 1) s h c hc
          exact ⟨b2, List.mem_cons_of_mem b hb2, hv2, he2⟩

/-- The strchr-based validity test and the storing step only ever emit
bytes distinct from the marker bytes 62 and 59. -/
theorem stored_valid1_ne_marker (caps : Bool) (b : Nat) (h : valid1 b = true) :
    stored caps b ≠ 62 ∧ stored caps b ≠ 59 := by
  cases caps with
  | false =>
    refine ⟨fun he => ?_, fun he => ?_⟩ <;>
      · simp only [stored, if_false, Bool.false_eq_true] at he
        subst he
        exact absurd h (by decide)
  | true =>
    have e : b % 256 % 256 = b % 256 := Nat.mod_mod_of_dvd b dvd_rfl
    have ts : toSigned (b % 256) = toSigned b := by
      unfold toSigned
      rw [e]
      rw [show ((b % 256 : Nat) : Int) % 256 = (b : Int) % 256 by push_cast; omega]
    have hv : valid1 (b % 256) = true := by
      unfold valid1 at h ⊢
      rw [ts]
      exact h
    have hf : foldByte (b % 256) = foldByte b := by
      unfold foldByte
      rw [ts]
    have key : ∀ x, x < 256 → valid1 x = true →
        foldByte x ≠ 62 ∧ foldByte x ≠ 59 := by
      set_option maxRecDepth 8192 in decide
    have hk := key (b % 256) (by omega) hv
    rw [hf] at hk
    simpa [stored] using hk

/-- The IS_VALID test and the storing step only ever emit bytes distinct
from the marker bytes 62 and 59. -/
theorem stored_valid3_ne_marker (caps : Bool) (b : Nat) (h : valid3 b = true) :
    stored caps b ≠ 62 ∧ stored caps b ≠ 59 := by
  cases caps with
  | false =>
    refine ⟨fun he => ?_, fun he => ?_⟩ <;>
      · simp only [stored, if_false, Bool.false_eq_true] at he
        subst he
        exact absurd h (by decide)
  | true =>
    have e : b % 256 % 256 = b % 256 := Nat.mod_mod_of_dvd b dvd_rfl
    have ts : toSigned (b % 256) = toSigned b := by
      unfold toSigned
      rw [e]
      rw [show ((b % 256 : Nat) : Int) % 256 = (b : Int) % 256 by push_cast; omega]
    have hv : valid3 (b % 256) = true := by
      unfold valid3 at h ⊢
      rw [ts]
      exact h
    have hf : foldByte (b % 256) = foldByte b := by
      unfold foldByte
      rw [ts]
    have key : ∀ x, x < 256 → valid3 x = true →
        foldByte x ≠ 62 ∧ foldByte x ≠ 59 := by
      set_option maxRecDepth 8192 in decide
    have hk := key (b % 256) (by omega) hv
    rw [hf] at hk
    simpa [stored] using hk

/-- The loop count (end - start) + 1 wraps to zero in size_t arithmetic
when start exceeds end by exactly one. -/
theorem needed_wrap (stop : Nat) : needed (stop + 1) stop = 0 := by
  unfold needed
  rw [show ((stop : Int) - ((stop + 1 : Nat) : Int) + 1) = 0 by push_cast; ring]
  decide

/-! Claim theorems. -/

/-- C1: on the file ">seq1\n ACGTACGT\n ACGT\n" (12 residues), open yields
header_len 6 and line_nt 8, get_sequence(1,4) returns "ACGT",
get_sequence(5,12) returns "ACGTACGT", get_sequence(9,12,true) returns
"ACGT", and get_sequence(1,13) fails with the out-of-bounds condition. -/
theorem C1_concrete_scenario :
    open_v1 c1file = some (6, 8) ∧
    get_sequence_v1 c1file 6 8 1 4 false = .ok [65, 67, 71, 84] ∧
    get_sequence_v1 c1file 6 8 5 12 false =
      .ok [65, 67, 71, 84, 65, 67, 71, 84] ∧
    get_sequence_v1 c1file 6 8 9 12 true = .ok [65, 67, 71, 84] ∧
    get_sequence_v1 c1file 6 8 1 13 false = .err .OutOfBounds := by
  refine ⟨by decide, by decide, by decide, by decide, by decide⟩

/-- C2 counterexample: at logical position 8 of the scenario file the
reference scan gives the byte 84, but get_sequence(8,8) returns the byte
65 of logical position 9: the fixed-width seek is off by one whenever the
start position is a multiple of the line width. -/
theorem C2_counterexample :
    get_sequence_v1 c1file 6 8 8 8 false = .ok [65] ∧
    ((refSeq c1file).drop (8 - 1)).take 1 = [84] ∧
    get_sequence_v1 c1file 6 8 8 8 false ≠
      .ok (((refSeq c1file).drop (8 - 1)).take 1) := by
  refine ⟨by decide, by decide, by decide⟩

set_option maxHeartbeats 2000000 in
/-- C2 amended: on the scenario file, get_sequence(p,p) returns exactly
the character of logical position p of the reference scan for every valid
p from 1 to 12 that is not a multiple of the line width 8. -/
theorem C2_amended_positional_identity :
    ∀ p < 13, 1 ≤ p → p % 8 ≠ 0 →
      get_sequence_v1 c1file 6 8 p p false =
        .ok (((refSeq c1file).drop (p - 1)).take 1) := by
  decide

/-- C2 amended witness at p = 3. -/
theorem C2_amended_positional_identity_witness :
    get_sequence_v1 c1file 6 8 3 3 false =
      .ok (((refSeq c1file).drop (3 - 1)).take 1) :=
  C2_amended_positional_identity 3 (by decide) (by decide) (by decide)

/-- C3 counterexample: with header_len 6 and line_nt 8, the seek offset
computed by seq_start at p = 8 is 14, one past the reference formula
value 13: the code divides p, not p - 1, by the line width. -/
theorem C3_counterexample :
    seq_start 6 8 8 = 14 ∧ specOffset 6 8 8 = 13 ∧
    seq_start 6 8 8 ≠ specOffset 6 8 8 := by
  refine ⟨by decide, by decide, by decide⟩

/-- C3 amended: for every positive line width and every p at least 1, the
seq_start offset equals the reference formula when p is not a multiple of
the line width, and exceeds it by exactly one byte when it is. -/
theorem C3_amended_offset_formula (hl w p : Nat) (hw : 0 < w) (hp : 1 ≤ p) :
    seq_start hl w p = specOffset hl w p + (if p % w = 0 then 1 else 0) := by
  obtain ⟨k, rfl⟩ : ∃ k, p = k + 1 := ⟨p - 1, by omega⟩
  have hk : w * (k / w) + k % w = k := Nat.div_add_mod k w
  have hrw : k % w < w := Nat.mod_lt _ hw
  by_cases hc : k % w + 1 < w
  · have hdiv : (k + 1) / w = k / w := by
      conv_lhs => rw [← hk]
      rw [show w * (k / w) + k % w + 1 = (k % w + 1) + w * (k / w) by ring]
      rw [Nat.add_mul_div_left _ _ hw, Nat.div_eq_of_lt hc, Nat.zero_add]
    have hmod : (k + 1) % w = k % w + 1 := by
      conv_lhs => rw [← hk]
      rw [show w * (k / w) + k % w + 1 = (k % w + 1) + w * (k / w) by ring]
      rw [Nat.add_mul_mod_self_left, Nat.mod_eq_of_lt hc]
    unfold seq_start specOffset
    rw [hdiv, hmod]
    simp only [Nat.add_sub_cancel]
    rw [if_neg (by omega : ¬ (k % w + 1 = 0))]
    generalize (k / w) * (w + 1) = t
    omega
  · have hcw : k % w + 1 = w := by omega
    have hsp : w * (k / w) + k % w + 1 = w * (k / w + 1) := by
      rw [Nat.mul_add, Nat.mul_one]
      omega
    have hdiv : (k + 1) / w = k / w + 1 := by
      conv_lhs => rw [← hk]
      rw [hsp]
      exact Nat.mul_div_cancel_left _ hw
    have hmod : (k + 1) % w = 0 := by
      conv_lhs => rw [← hk]
      rw [hsp]
      exact Nat.mul_mod_right w _
    unfold seq_start specOffset
    rw [hdiv, hmod]
    simp only [Nat.add_sub_cancel]
    rw [if_pos (by trivial)]
    rw [show (k / w + 1) * (w + 1) = (k / w) * (w + 1) + (w + 1) by ring]
    generalize (k / w) * (w + 1) = t
    omega

/-- C3 amended witness at header_len 6, line width 8, p = 8. -/
theorem C3_amended_offset_formula_witness :
    seq_start 6 8 8 = specOffset 6 8 8 + (if 8 % 8 = 0 then 1 else 0) :=
  C3_amended_offset_formula 6 8 8 (by decide) (by decide)

/-- C4 counterexample: on the scenario file, get_sequence(1,7) followed by
get_sequence(8,9) concatenates to "ACGTACGAC", while get_sequence(1,9)
returns "ACGTACGTA": splitting at a multiple of the line width drops the
character at the split. -/
theorem C4_counterexample :
    qcat (get_sequence_v1 c1file 6 8 1 7 false)
        (get_sequence_v1 c1file 6 8 8 9 false) =
      .ok [65, 67, 71, 84, 65, 67, 71, 65, 67] ∧
    get_sequence_v1 c1file 6 8 1 9 false =
      .ok [65, 67, 71, 84, 65, 67, 71, 84, 65] ∧
    qcat (get_sequence_v1 c1file 6 8 1 7 false)
        (get_sequence_v1 c1file 6 8 8 9 false) ≠
      get_sequence_v1 c1file 6 8 1 9 false := by
  refine ⟨by decide, by decide, by decide⟩

set_option maxHeartbeats 4000000 in
set_option maxRecDepth 10000 in
/-- C4 amended: the concatenation law holds on the scenario file for all
in-bounds positions a, m, b with a at most m and m below b, provided
neither the start a nor the split point m + 1 is a multiple of the line
width (at such positions the off-by-one of seq_start shifts the read). -/
theorem C4_amended_concatenation :
    ∀ a m b : Fin 13, 1 ≤ a.val → a.val ≤ m.val → m.val < b.val →
      a.val % 8 ≠ 0 → (m.val + 1) % 8 ≠ 0 →
      qcat (get_sequence_v1 c1file 6 8 a.val m.val false)
          (get_sequence_v1 c1file 6 8 (m.val + 1) b.val false) =
        get_sequence_v1 c1file 6 8 a.val b.val false := by
  decide

/-- C4 amended witness at a = 1, m = 4, b = 9. -/
theorem C4_amended_concatenation_witness :
    qcat (get_sequence_v1 c1file 6 8 (1 : Fin 13).val (4 : Fin 13).val false)
        (get_sequence_v1 c1file 6 8 ((4 : Fin 13).val + 1) (9 : Fin 13).val false) =
      get_sequence_v1 c1file 6 8 (1 : Fin 13).val (9 : Fin 13).val false :=
  C4_amended_concatenation 1 4 9 (by decide) (by decide) (by decide)
    (by decide) (by decide)

/-- C5 counterexample: the isprint-based scanning variant returns the
string "aAC>b" for the query (1,5) on the two-record file
">a\n AC\n >b\n GT\n": the header marker byte 62 appears in the result. -/
theorem C5_counterexample :
    get_sequence_v2 multirec 1 5 false = .ok [97, 65, 67, 62, 98] ∧
    62 ∈ [97, 65, 67, 62, 98] := by
  refine ⟨by decide, by decide⟩

/-- C5 amended: for the two variants whose validity test is the residue
alphabet (the strchr-based fixed-width variant through get_sequence, and
the IS_VALID-based variant through its extraction loop), no returned
string ever contains the header marker byte 62 or the comment marker
byte 59; the isprint-based variant does not share this guarantee. -/
theorem C5_amended_marker_exclusion
    (bytes : List Nat) (hl w a b : Nat) (caps : Bool) (s : List Nat)
    (h : get_sequence_v1 bytes hl w a b caps = .ok s ∨
         extractLoop valid3 caps bytes (needed a b) = .ok s) :
    62 ∉ s ∧ 59 ∉ s := by
  rcases h with h | h
  · unfold get_sequence_v1 at h
    constructor <;> intro hm
    · obtain ⟨b2, _, hv, he⟩ := extractLoop_mem valid1 caps _ _ s h 62 hm
      exact (stored_valid1_ne_marker caps b2 hv).1 he.symm
    · obtain ⟨b2, _, hv, he⟩ := extractLoop_mem valid1 caps _ _ s h 59 hm
      exact (stored_valid1_ne_marker caps b2 hv).2 he.symm
  · constructor <;> intro hm
    · obtain ⟨b2, _, hv, he⟩ := extractLoop_mem valid3 caps _ _ s h 62 hm
      exact (stored_valid3_ne_marker caps b2 hv).1 he.symm
    · obtain ⟨b2, _, hv, he⟩ := extractLoop_mem valid3 caps _ _ s h 59 hm
      exact (stored_valid3_ne_marker caps b2 hv).2 he.symm

/-- C5 amended witness on the scenario file, query (1,4). -/
theorem C5_amended_marker_exclusion_witness :
    62 ∉ [65, 67, 71, 84] ∧ 59 ∉ [65, 67, 71, 84] :=
  C5_amended_marker_exclusion c1file 6 8 1 4 false [65, 67, 71, 84]
    (Or.inl (by decide))

/-- C6: the fixed-width variant accepts both cases and folds only on
request, matching the mixed-case scenario on ">s\n acgtACGT\n"; but the
IS_VALID macro of the third variant rejects the lowercase byte 97 (its
lowercase range compares against 90 instead of 122), contradicting its
own comment that all letters are valid. -/
theorem C6_mixed_case :
    IS_VALID (toSigned 97) = false ∧
    valid1 97 = true ∧
    open_v1 mixfile = some (3, 8) ∧
    get_sequence_v1 mixfile 3 8 1 8 true =
      .ok [65, 67, 71, 84, 65, 67, 71, 84] ∧
    get_sequence_v1 mixfile 3 8 1 8 false =
      .ok [97, 99, 103, 116, 65, 67, 71, 84] := by
  refine ⟨by decide, by decide, by decide, by decide, by decide⟩

/-- C7: the extraction loop of all three variants is all-or-nothing: a
successful result has exactly (end - start) + 1 characters, and when
fewer valid characters remain in the stream than requested the loop fails
with the out-of-bounds condition instead of returning a prefix. -/
theorem C7_all_or_nothing (vp : Nat → Bool) (caps : Bool)
    (bytes : List Nat) (n : Nat) :
    (∀ s, extractLoop vp caps bytes n = .ok s → s.length = n) ∧
    (bytes.countP (fun b => vp b && !(toSigned b == -1)) < n →
      extractLoop vp caps bytes n = .err .OutOfBounds) :=
  ⟨fun s h => extractLoop_ok_length vp caps bytes n s h,
   fun h => extractLoop_insufficient vp caps bytes n h⟩

/-- C7 witness: a two-byte stream yields the full two bytes for a request
of two and the out-of-bounds error for a request of three. -/
theorem C7_all_or_nothing_witness :
    (([65, 67] : List Nat).length = 2) ∧
    extractLoop valid1 false [65, 67] 3 = .err .OutOfBounds :=
  ⟨(C7_all_or_nothing valid1 false [65, 67] 2).1 [65, 67] (by decide),
   (C7_all_or_nothing valid1 false [65, 67] 3).2 (by decide)⟩

/-- C8 counterexample: no InvalidRange rejection exists: on the scenario
file, get_sequence(2,1) with start above end returns the empty string,
and get_sequence(0,1) returns "AC", the first two residues, instead of
failing. -/
theorem C8_counterexample :
    get_sequence_v1 c1file 6 8 2 1 false = .ok [] ∧
    get_sequence_v1 c1file 6 8 0 1 false = .ok [65, 67] ∧
    get_sequence_v1 c1file 6 8 2 1 false ≠ .err .InvalidRange ∧
    get_sequence_v1 c1file 6 8 0 1 false ≠ .err .InvalidRange := by
  refine ⟨by decide, by decide, by decide, by decide⟩

/-- C8 amended: get_sequence performs no range validation: when start is
end + 1 the size_t length computation wraps to zero and the empty string
is returned for any file; start = 0 is silently reinterpreted (on the
scenario file it returns the residues at logical positions 1 and 2); and
start exceeding end by more than one runs to end of stream and fails
with the out-of-bounds condition. -/
theorem C8_amended_no_range_validation :
    (∀ (bytes : List Nat) (hl w stop : Nat) (caps : Bool),
        get_sequence_v1 bytes hl w (stop + 1) stop caps = .ok []) ∧
    get_sequence_v1 c1file 6 8 0 1 false = .ok [65, 67] ∧
    get_sequence_v1 c1file 6 8 12 1 false = .err .OutOfBounds := by
  refine ⟨?_, by decide, by decide⟩
  intro bytes hl w stop caps
  unfold get_sequence_v1
  rw [needed_wrap]
  exact extractLoop_zero valid1 caps _

/-- C9 counterexample: the fixed-width variant consumes the first line as
the header unconditionally: opening "ACGT\n ACGT\n", whose first line is
sequence data, yields header_len 5, not a data start of byte 0. -/
theorem C9_counterexample :
    open_v1 hdrless = some (5, 4) ∧ (5 : Nat) ≠ 0 := by
  refine ⟨by decide, by decide⟩

/-- C9 amended: the comment-skipping open of the third variant does start
the data region at byte 0 with an empty header whenever the first line is
nonempty and non-structural by the code's own test (byte 0 differs from
the header marker 62 and byte 1 differs from the comment marker 59); the
fixed-width open instead always treats the first line as the header. -/
theorem C9_amended_first_line_data (bytes : List Nat)
    (hne : bytes.takeWhile (fun b => b != 10) ≠ [])
    (h0 : (bytes.takeWhile (fun b => b != 10)).getD 0 0 ≠ 62)
    (h1 : (bytes.takeWhile (fun b => b != 10)).getD 1 0 ≠ 59) :
    open_v3 bytes = (0, some (bytes.takeWhile (fun b => b != 10)).length) := by
  cases bytes with
  | nil => simp at hne
  | cons b0 rest =>
    unfold open_v3
    rw [show (b0 :: rest).length + 1 = (rest.length + 1) + 1 by simp]
    rw [open_v3_loop]
    have hcond : (((b0 :: rest).takeWhile (fun b => b != 10)).getD 0 0 != 62 &&
        ((b0 :: rest).takeWhile (fun b => b != 10)).getD 1 0 != 59) = true := by
      rw [Bool.and_eq_true, bne_iff_ne, bne_iff_ne]
      exact ⟨h0, h1⟩
    simp only [hcond, if_pos]

/-- C9 amended witness on the file "ACGT\n AC\n". -/
theorem C9_amended_first_line_data_witness :
    open_v3 [65, 67, 71, 84, 10, 65, 67, 10] =
      (0, some ([65, 67, 71, 84, 10, 65, 67, 10].takeWhile
        (fun b => b != 10)).length) :=
  C9_amended_first_line_data [65, 67, 71, 84, 10, 65, 67, 10]
    (by decide) (by decide) (by decide)

/-- C10: the byte 0 passes the strchr validity test of the fixed-width
variant (strchr matches the terminator of the alphabet string), so a NUL
byte reached by the extraction loop is appended to the result and counts
toward the requested length; concretely, on ">s\n A NUL G T\n ACGT\n" the
query (1,4) returns the four bytes 65, 0, 71, 84. -/
theorem C10_nul_byte_valid :
    valid1 0 = true ∧
    (∀ (rest : List Nat) (n : Nat) (caps : Bool) (s : List Nat),
        extractLoop valid1 caps rest n = .ok s →
        extractLoop valid1 caps (0 :: rest) (n + 1) = .ok (0 :: s)) ∧
    open_v1 nulfile = some (3, 4) ∧
    get_sequence_v1 nulfile 3 4 1 4 false = .ok [65, 0, 71, 84] := by
  refine ⟨by decide, ?_, by decide, by decide⟩
  intro rest n caps s h
  rw [extractLoop]
  rw [if_neg (by decide : ¬ ((toSigned 0 == -1) = true))]
  rw [if_pos (by decide : valid1 0 = true)]
  rw [h]
  have hs : stored caps 0 = 0 := by
    cases caps <;> decide
  rw [hs]

/-- C10 witness: appending the NUL step at a concrete stream. -/
theorem C10_nul_byte_valid_witness :
    extractLoop valid1 false [0, 65] 2 = .ok [0, 65] :=
  C10_nul_byte_valid.2.1 [65] 1 false [65] (by decide)

end Fasta
